import Mathlib

/-
Verification of scripts/mmseqs_pipeline.py (alignment partitioning and
reconciliation engine).  The Python functions are shallowly embedded over
`List Char` (one list per text line, newline characters included, exactly as
Python file iteration yields them) and `List (List Char)` (a file as its list
of lines).  Python string operations are modelled by executable Lean
counterparts defined below.
-/

set_option maxRecDepth 4000

/-- Python whitespace characters, as stripped by str.strip(). -/
def isPyWS (c : Char) : Bool :=
  c = ' ' || c = '\t' || c = '\n' || c = '\r' || c = Char.ofNat 11 || c = Char.ofNat 12

/-- Python str.strip(): remove leading and trailing whitespace. -/
def pyStrip (s : List Char) : List Char :=
  ((s.dropWhile isPyWS).reverse.dropWhile isPyWS).reverse

/-- Python s.startswith(pre). -/
def pyStartsWith (s pre : List Char) : Bool :=
  pre.isPrefixOf s

/-- Python s.split(sep) for a single-character separator (the only form the
script uses: it splits on a tab, an underscore or a dot). -/
def pySplit (sep : Char) : List Char → List (List Char)
  | [] => [[]]
  | c :: rest =>
    if c = sep then [] :: pySplit sep rest
    else
      match pySplit sep rest with
      | [] => [[c]]
      | chunk :: chunks => (c :: chunk) :: chunks

/-- Worker for Python str.replace: `k` counts characters still to be skipped
after a match consumed part of the input. -/
def replGo (oh : Char) (ot new : List Char) : Nat → List Char → List Char
  | _ + 1, [] => []
  | k + 1, _ :: rest => replGo oh ot new k rest
  | 0, [] => []
  | 0, c :: rest =>
    if c = oh ∧ ot.isPrefixOf rest then new ++ replGo oh ot new ot.length rest
    else c :: replGo oh ot new 0 rest

/-- Python s.replace(old, new): every non-overlapping occurrence of `old`,
scanned left to right, is replaced by `new`; an empty `old` inserts `new`
between every character. -/
def pyReplace (s old new : List Char) : List Char :=
  match old with
  | [] => new ++ (s.map (fun c => c :: new)).flatten
  | oh :: ot => replGo oh ot new 0 s

/-- Whether `pat` occurs as a contiguous substring of `s`. -/
def occursIn (pat : List Char) : List Char → Bool
  | [] => pat.isPrefixOf []
  | s@(_ :: rest) => pat.isPrefixOf s || occursIn pat rest

/-- Lookup in a Python dict represented by its insertion sequence: the value
of the LAST insertion with the requested key (later writes win). -/
def pyLookup {α β : Type} [DecidableEq α] (l : List (α × β)) (k : α) : Option β :=
  (l.reverse.find? (fun p => decide (p.1 = k))).map Prod.snd

/-- List.map with the Python enumerate index threaded through. -/
def mapIdx {α β : Type} (f : Nat × α → β) : Nat → List α → List β
  | _, [] => []
  | i, a :: l => f (i, a) :: mapIdx f (i + 1) l

/-- Loop of read_a3m: walks the enumerated lines carrying the optional
query_name (None models Python's unbound local variable: referencing it
raises, which we model as `none`), the collected heads and seqs, and the
current uniref_index. -/
def read_a3m_go (i : Nat) (qn : Option (List Char)) (heads seqs : List (List Char))
    (u : Nat) : List (List Char) → Option (List (List Char) × List (List Char) × Nat)
  | [] => some (heads, seqs, u)
  | l :: rest =>
    if pyStartsWith l ['>'] then
      if i = 0 then read_a3m_go (i + 1) (some l) (heads ++ [l]) seqs u rest
      else
        match qn with
        | none => none
        | some q => read_a3m_go (i + 1) (some q) (heads ++ [l]) seqs
            (if l = q then i else u) rest
    else read_a3m_go (i + 1) qn heads (seqs ++ [l]) u rest

/-- read_a3m of mmseqs_pipeline.py: returns (heads, seqs, uniref_index);
`none` models the NameError raised when line 0 is not a header but a later
line is (query_name referenced before assignment). -/
def read_a3m (lines : List (List Char)) :
    Option (List (List Char) × List (List Char) × Nat) :=
  read_a3m_go 0 none [] [] 0 lines

/-- The identifier of a header line: the text up to the first tab, minus the
leading character (Python: head.split("\t")[0][1:]). -/
def identOf (head : List Char) : List Char :=
  ((pySplit '\t' head).headD []).drop 1

/-- Body of the update_a3m loop for one (idx, head, seq) record: inject the
NCBI TaxID into the header when the record lies before the uniref boundary
and its identifier is a key of the taxonomy dict. -/
def annotate (tax : List (List Char × List Char)) (u idx : Nat)
    (head seq : List Char) : List Char × List Char :=
  let uid := identOf head
  match pyLookup tax uid with
  | some taxid =>
    if idx < u / 2 then
      if ¬ pyStartsWith uid "UniRef100_".toList then
        (pyReplace head uid ("UniRef100_".toList ++ uid ++ "_".toList ++ taxid ++ "/".toList), seq)
      else
        (pyReplace head uid (uid ++ "_".toList ++ taxid ++ "/".toList), seq)
    else (head, seq)
  | none => (head, seq)

/-- update_a3m of mmseqs_pipeline.py, as the list of (header, sequence)
records it writes; `none` when read_a3m raises. -/
def update_a3m (lines : List (List Char)) (tax : List (List Char × List Char)) :
    Option (List (List Char × List Char)) :=
  (read_a3m lines).map (fun r =>
    mapIdx (fun p => annotate tax r.2.2 p.1 p.2.1 p.2.2) 0 (r.1.zip r.2.1))

/-- Exceptions of the script that matter to the claims. -/
inductive PyErr where
  | indexError
  | keyError
  | assertCount
  | assertTab
  | assertNoHits
deriving DecidableEq, Repr

/-- Observable outcome of one process_one_file call: the messages passed to
the logger, the contents written to uniref100_hits.a3m and
mmseqs_other_hits.a3m (none if the file is not written), the returned
origin_query_seq (none when the function returns None), and the exception
raised, if any. -/
structure POFResult where
  logs : List String
  pairingOut : Option (List (List Char))
  nonPairingOut : Option (List (List Char))
  retval : Option (List Char)
  err : Option PyErr
deriving DecidableEq, Repr

/-- Outcome of the classification loop over lines[2:]. -/
inductive LoopOut where
  | badHeader (i : Nat)
  | splitError
  | done (uniref other : List (List Char))
deriving DecidableEq, Repr

/-- The classification loop of process_one_file: `for i, line in
enumerate(lines[2:])`.  `lines` is the full line list (the loop reads
`seq = lines[i + 1]` from it — note the slice-relative index `i` used
against the full list), `rem` the remaining slice, `i` the enumerate index,
`u`/`o` the uniref100_lines and other_lines accumulators. -/
def pofLoop (lines : List (List Char)) :
    List (List Char) → Nat → List (List Char) → List (List Char) → LoopOut
  | [], _, u, o => .done u o
  | l :: rest, i, u, o =>
    if i % 2 = 0 then
      if pyStartsWith l ['>'] then
        let seq := lines.getD (i + 1) []
        if pyStartsWith l ">UniRef100".toList then
          let parts := pySplit '_' ((pySplit '\t' l).headD [])
          if parts.length = 3 then
            pofLoop lines rest (i + 1)
              (u ++ [">cb|".toList ++ parts.getD 1 [] ++ "|".toList ++ parts.getD 1 []
                      ++ "_".toList ++ parts.getD 2 [] ++ "\n".toList, seq]) o
          else if 2 ≤ parts.length then
            pofLoop lines rest (i + 1)
              (u ++ [">cb|".toList ++ parts.getD 1 [] ++ "|".toList ++ parts.getD 1 []
                      ++ "/\n".toList, seq]) o
          else .splitError
        else pofLoop lines rest (i + 1) u (o ++ [l, seq])
      else .badHeader i
    else pofLoop lines rest (i + 1) u o

/-- The two synthetic query lines that seed both accumulators. -/
def queryInit (lines : List (List Char)) : List (List Char) :=
  [">query\n".toList, pyStrip (lines.getD 1 []) ++ "\n".toList]

/-- The `assert "\t" in line` loop over the final other_lines: every line at
an even position after 0 must contain a tab. -/
def tabCheck : Nat → List (List Char) → Bool
  | _, [] => true
  | i, l :: rest =>
    (i == 0 || i % 2 == 1 || l.contains '\t') && tabCheck (i + 1) rest

/-- Tail of process_one_file after the classification loop: the record-count
assertion, the removal other_lines[0:2] + other_lines[4:], the tab
assertion, the conditional writes and the final not-both-empty assertion. -/
def afterLoop (len : Nat) (origin : List Char) (u o : List (List Char)) : POFResult :=
  if (u.length + o.length) - 2 ≠ len then
    { logs := [], pairingOut := none, nonPairingOut := none, retval := none,
      err := some .assertCount }
  else
    let o2 := o.take 2 ++ o.drop 4
    if ¬ tabCheck 0 o2 then
      { logs := [], pairingOut := none, nonPairingOut := none, retval := none,
        err := some .assertTab }
    else if 2 < u.length ∨ 2 < o2.length then
      { logs := [],
        pairingOut := if 2 < u.length then some u else none,
        nonPairingOut := if 2 < o2.length then some o2 else none,
        retval := some origin, err := none }
    else
      { logs := [], pairingOut := none, nonPairingOut := none, retval := none,
        err := some .assertNoHits }

/-- process_one_file of mmseqs_pipeline.py.  Files with fewer than two lines
reach `lines[1]` unguarded and raise IndexError; a line 1 of length 1 is the
empty-query early return; headers not starting with '>' are the bad-header
early return; a ">UniRef100" header whose first tab-field has no underscore
raises IndexError at uniref_id[1]. -/
def process_one_file (lines : List (List Char)) : POFResult :=
  if 2 ≤ lines.length then
    if (lines.getD 1 []).length = 1 then
      { logs := ["empty_query_seq"], pairingOut := none, nonPairingOut := none,
        retval := none, err := none }
    else
      match pofLoop lines (lines.drop 2) 0 (queryInit lines) (queryInit lines) with
      | .badHeader i =>
        { logs := ["bad_header_" ++ toString i], pairingOut := none,
          nonPairingOut := none, retval := none, err := none }
      | .splitError =>
        { logs := [], pairingOut := none, nonPairingOut := none, retval := none,
          err := some .indexError }
      | .done u o => afterLoop lines.length (pyStrip (lines.getD 1 [])) u o
  else
    { logs := [], pairingOut := none, nonPairingOut := none, retval := none,
      err := some .indexError }

/-- write_log of mmseqs_pipeline.py: the name of the empty marker file it
creates for message `msg` on file `fname` (fname.split(".")[0] + "-" + msg). -/
def markerName (fname msg : String) : String :=
  String.mk ((pySplit '.' fname.toList).headD []) ++ "-" ++ msg

/-- The marker files a process_one_file call creates for file `fname`. -/
def markersOf (fname : String) (r : POFResult) : List String :=
  r.logs.map (markerName fname)

/-- The registry-building loop of __main__: `msa_chain_seq[str(i)] = query`
for every enumerated file, unconditionally — also when process_one_file
returned None.  An exception in any call aborts the run before the registry
is serialised, modelled as `none`. -/
def buildRegistry (files : List (String × List (List Char))) :
    Option (List (String × Option (List Char))) :=
  if files.all (fun f => (process_one_file f.2).err.isNone) then
    some (mapIdx (fun p => (toString p.1, (process_one_file p.2.2).retval)) 0 files)
  else none

/-- The protein sub-object of one entry of the fold-input document; `extra`
carries all further JSON fields untouched by the script. -/
structure Protein where
  id : List Char
  sequence : List Char
  unpairedMsa : Option (List Char)
  pairedMsa : Option (List Char)
  templates : Option (List Unit)
  extra : List (List Char × List Char)
deriving DecidableEq, Repr

/-- One entry of fold_input["sequences"]: a protein entry or an entry of any
other kind (rna, dna, ligand, ...) with an opaque payload. -/
inductive Entity where
  | protein (p : Protein)
  | nonProtein (tag : List Char) (payload : List Char)
deriving DecidableEq, Repr

/-- The fold-input JSON document. -/
structure FoldInput where
  name : List Char
  sequences : List Entity
  extra : List (List Char × List Char)
deriving DecidableEq, Repr

/-- The inversion msa_seq_chain = {v: k for k, v in msa_chain_seq.items()}:
lookup of a sequence returns the identifier of the LAST registration with
that sequence. -/
def msaSeqChain (reg : List (String × Option (List Char))) (seq : List Char) :
    Option String :=
  pyLookup (reg.map (fun p => (p.2, p.1))) (some seq)

/-- Replace every tab by a single space (text.replace("\t", " ")). -/
def tabToSpace (s : List Char) : List Char :=
  pyReplace s "\t".toList " ".toList

/-- Concatenate the subset files of `dbs` that exist for chain `cid`
(missing files are skipped), then replace tabs by spaces.  `fs cid db` is
the content of msa_dir/cid/db_hits.a3m, none if that file does not exist. -/
def gatherDb (fs : String → String → Option (List Char)) (cid : String)
    (dbs : List String) : List Char :=
  tabToSpace (dbs.filterMap (fun db => fs cid db)).flatten

/-- The body of the per-chain loop of write_to_af3_template.  A non-protein
entry raises KeyError at chain["protein"]; an unregistered sequence raises
KeyError at msa_seq_chain[chain_seq]. -/
def processEntity (reg : List (String × Option (List Char)))
    (fs : String → String → Option (List Char)) (udb pdb : List String) :
    Entity → Except PyErr Entity
  | .nonProtein _ _ => .error .keyError
  | .protein ch =>
    match msaSeqChain reg ch.sequence with
    | none => .error .keyError
    | some cid =>
      .ok (.protein { ch with
        unpairedMsa := some (gatherDb fs cid udb),
        pairedMsa := some (gatherDb fs cid pdb),
        templates := some [] })

/-- Sequential processing of a list, aborting at the first exception, as the
Python for-loop does. -/
def mapExcept {α β ε : Type} (f : α → Except ε β) : List α → Except ε (List β)
  | [] => .ok []
  | x :: xs =>
    match f x with
    | .error e => .error e
    | .ok y =>
      match mapExcept f xs with
      | .error e => .error e
      | .ok ys => .ok (y :: ys)

/-- write_to_af3_template of mmseqs_pipeline.py: deep-copies the document
and overwrites unpairedMsa, pairedMsa and templates of every protein entry;
the default subset lists are uniref100 + mmseqs_other for the unpaired and
uniref100 for the paired alignment. -/
def write_to_af3_template (doc : FoldInput)
    (reg : List (String × Option (List Char)))
    (fs : String → String → Option (List Char))
    (udb : List String := ["uniref100", "mmseqs_other"])
    (pdb : List String := ["uniref100"]) : Except PyErr FoldInput :=
  (mapExcept (processEntity reg fs udb pdb) doc.sequences).map
    (fun seqs => { doc with sequences := seqs })

/-- Well-formedness of an alignment file with n header/sequence pairs after
the query, per the spec's file format: line 0 the query header, line 1 a
non-degenerate query sequence line, lines 2.. alternating header/sequence
with every header starting with '>', and every ">UniRef100" header carrying
a sub-identifier (an underscore in its first tab-field, as every genuine
UniRef100 identifier does). -/
def wellFormed (n : Nat) (lines : List (List Char)) : Prop :=
  lines.length = 2 + 2 * n ∧
  (lines.getD 1 []).length ≠ 1 ∧
  (∀ j, j < n → pyStartsWith (lines.getD (2 + 2 * j) []) ['>'] = true) ∧
  (∀ j, j < n → pyStartsWith (lines.getD (2 + 2 * j) []) ">UniRef100".toList = true →
    2 ≤ (pySplit '_' ((pySplit '\t' (lines.getD (2 + 2 * j) [])).headD [])).length)

instance wellFormedDecidable (n : Nat) (lines : List (List Char)) :
    Decidable (wellFormed n lines) := by
  unfold wellFormed; infer_instance

/-- Number of even values among i, i+1, ..., i+n-1. -/
def evenCount : Nat → Nat → Nat
  | _, 0 => 0
  | i, n + 1 => (if i % 2 = 0 then 1 else 0) + evenCount (i + 1) n

deriving instance DecidableEq for Except

/-- Concrete protein chain used to exercise the assembler. -/
def ex7Prot : Protein :=
  { id := "A".toList, sequence := "MKT".toList, unpairedMsa := none,
    pairedMsa := none, templates := none, extra := [] }

/-- Concrete single-chain document for the assembler. -/
def ex7Doc : FoldInput :=
  { name := "x".toList, sequences := [Entity.protein ex7Prot], extra := [] }

/-- Registry resolving the concrete chain. -/
def ex7Reg : List (String × Option (List Char)) := [("0", some "MKT".toList)]

/-- A directory in which no subset file exists. -/
def ex7Fs : String → String → Option (List Char) := fun _ _ => none

/-- The protein entry of the emitted document for ex7Doc. -/
def ex7OutProt : Protein :=
  { ex7Prot with unpairedMsa := some [], pairedMsa := some [], templates := some [] }

/-- The document the assembler emits for ex7Doc with no subset files. -/
def ex7Out : FoldInput :=
  { name := "x".toList, sequences := [Entity.protein ex7OutProt], extra := [] }

/-- The protein chain of ex8Doc. -/
def ex8Prot : Protein :=
  { id := "A".toList, sequence := "MKT".toList, unpairedMsa := none,
    pairedMsa := none, templates := none, extra := [] }

/-- Document holding one protein chain and one RNA entry. -/
def ex8Doc : FoldInput :=
  { name := "y".toList,
    sequences := [Entity.protein ex8Prot, Entity.nonProtein "rna".toList "GGG".toList],
    extra := [] }

/-- Registry resolving the protein chain of ex8Doc. -/
def ex8Reg : List (String × Option (List Char)) := [("0", some "MKT".toList)]

/-- A directory in which no subset file exists (assembler crash scenario). -/
def ex8Fs : String → String → Option (List Char) := fun _ _ => none

theorem getD_drop_add {α : Type} (d : α) :
    ∀ (n : Nat) (l : List α) (j : Nat), (l.drop n).getD j d = l.getD (n + j) d := by
  intro n
  induction n with
  | zero => intro l j; simp
  | succ n ih =>
    intro l j
    cases l with
    | nil => simp [List.getD]
    | cons a l =>
      have h : n + 1 + j = (n + j) + 1 := by omega
      simp only [List.drop_succ_cons, ih l j, h, List.getD_cons_succ]

theorem isPrefixOf_append_self : ∀ (l r : List Char), l.isPrefixOf (l ++ r) = true := by
  intro l
  induction l with
  | nil => intro r; simp [List.isPrefixOf]
  | cons a l ih => intro r; simp [List.isPrefixOf, ih r]

theorem replGo_skip (oh : Char) (ot new : List Char) :
    ∀ (pre rest : List Char),
      replGo oh ot new pre.length (pre ++ rest) = replGo oh ot new 0 rest := by
  intro pre
  induction pre with
  | nil => intro rest; rfl
  | cons c pre ih => intro rest; simpa [replGo] using ih rest

theorem replGo_noOccur (oh : Char) (ot new : List Char) :
    ∀ (s : List Char), occursIn (oh :: ot) s = false → replGo oh ot new 0 s = s := by
  intro s
  induction s with
  | nil => intro _; rfl
  | cons c rest ih =>
    intro h
    simp only [occursIn, Bool.or_eq_false_iff] at h
    obtain ⟨h1, h2⟩ := h
    have hcond : ¬ (c = oh ∧ ot.isPrefixOf rest = true) := by
      intro ⟨hc, hp⟩
      rw [List.isPrefixOf] at h1
      simp [hc, hp] at h1
    simp only [replGo]
    rw [if_neg (by simpa using hcond)]
    rw [ih h2]

theorem replGo_cons_neg (oh : Char) (ot new : List Char) (c : Char) (s : List Char)
    (h : ¬ (c = oh ∧ ot.isPrefixOf s = true)) :
    replGo oh ot new 0 (c :: s) = c :: replGo oh ot new 0 s := by
  simp only [replGo]
  rw [if_neg h]

theorem replGo_cons_pos (oh : Char) (ot new : List Char) (c : Char) (s : List Char)
    (h : c = oh ∧ ot.isPrefixOf s = true) :
    replGo oh ot new 0 (c :: s) = new ++ replGo oh ot new ot.length s := by
  simp only [replGo]
  rw [if_pos h]

theorem pyReplace_ident (c : Char) (ct rest new : List Char)
    (hgt : '>' ∉ (c :: ct)) (hno : occursIn (c :: ct) rest = false) :
    pyReplace ('>' :: ((c :: ct) ++ rest)) (c :: ct) new = '>' :: (new ++ rest) := by
  have hc : ¬ ('>' = c) := by
    intro h; subst h; exact hgt (List.mem_cons_self _ _)
  show replGo c ct new 0 ('>' :: ((c :: ct) ++ rest)) = '>' :: (new ++ rest)
  rw [List.cons_append]
  rw [replGo_cons_neg c ct new '>' (c :: (ct ++ rest)) (fun h => hc h.1)]
  rw [replGo_cons_pos c ct new c (ct ++ rest) ⟨rfl, isPrefixOf_append_self ct rest⟩]
  rw [replGo_skip c ct new ct rest, replGo_noOccur c ct new rest hno]

theorem tab_notin_replGo :
    ∀ (s : List Char), '\t' ∉ replGo '\t' [] [' '] 0 s := by
  intro s
  induction s with
  | nil => simp [replGo]
  | cons a rest ih =>
    by_cases ha : a = '\t'
    · simp only [replGo, List.isPrefixOf]
      rw [if_pos (by simp [ha, List.isPrefixOf])]
      intro hmem
      rcases List.mem_append.mp hmem with h | h
      · simp at h
      · exact ih (by simpa using h)
    · simp only [replGo]
      rw [if_neg (by simp [ha])]
      intro hmem
      rcases List.mem_cons.mp hmem with h | h
      · exact ha h.symm
      · exact ih h

theorem tab_notin_tabToSpace (s : List Char) : '\t' ∉ tabToSpace s := by
  have hts : "\t".toList = ['\t'] := rfl
  have hsp : " ".toList = [' '] := rfl
  simpa [tabToSpace, pyReplace, hts, hsp] using tab_notin_replGo s

theorem mapIdx_getD {α β : Type} (f : Nat × α → β) (d : β) (dα : α) :
    ∀ (l : List α) (i j : Nat), j < l.length →
      (mapIdx f i l).getD j d = f (i + j, l.getD j dα) := by
  intro l
  induction l with
  | nil => intro i j h; simp at h
  | cons a l ih =>
    intro i j h
    cases j with
    | zero => simp [mapIdx]
    | succ j =>
      have h' : j < l.length := by simpa using h
      have harith : i + 1 + j = i + (j + 1) := by omega
      simp only [mapIdx, List.getD_cons_succ, ih (i + 1) j h', harith]

theorem mapExcept_ok_length {α β ε : Type} (f : α → Except ε β) :
    ∀ (xs : List α) (ys : List β), mapExcept f xs = .ok ys → ys.length = xs.length := by
  intro xs
  induction xs with
  | nil => intro ys h; simp [mapExcept] at h; simp [← h]
  | cons x xs ih =>
    intro ys h
    simp only [mapExcept] at h
    cases hfx : f x with
    | error e => rw [hfx] at h; exact absurd h (by simp)
    | ok y =>
      rw [hfx] at h
      cases hrec : mapExcept f xs with
      | error e => rw [hrec] at h; exact absurd h (by simp)
      | ok ys' =>
        rw [hrec] at h
        cases h
        simp [ih ys' hrec]

theorem mapExcept_ok_getD {α β ε : Type} (f : α → Except ε β) (dx : α) (dy : β) :
    ∀ (xs : List α) (ys : List β) (j : Nat), mapExcept f xs = .ok ys →
      j < xs.length → f (xs.getD j dx) = .ok (ys.getD j dy) := by
  intro xs
  induction xs with
  | nil => intro ys j _ h; simp at h
  | cons x xs ih =>
    intro ys j h hj
    simp only [mapExcept] at h
    cases hfx : f x with
    | error e => rw [hfx] at h; exact absurd h (by simp)
    | ok y =>
      rw [hfx] at h
      cases hrec : mapExcept f xs with
      | error e => rw [hrec] at h; exact absurd h (by simp)
      | ok ys' =>
        rw [hrec] at h
        cases h
        cases j with
        | zero => simpa using hfx
        | succ j =>
          have hj' : j < xs.length := by simpa using hj
          simpa using ih ys' j hrec hj'

theorem find_append_of_none {α : Type} (p : α → Bool) :
    ∀ (l₁ l₂ : List α), (∀ x ∈ l₁, p x = false) →
      (l₁ ++ l₂).find? p = l₂.find? p := by
  intro l₁
  induction l₁ with
  | nil => intro l₂ _; rfl
  | cons a l ih =>
    intro l₂ h
    have ha : p a = false := h a (by simp)
    simp only [List.cons_append, List.find?]
    rw [ha]
    exact ih l₂ (fun x hx => h x (by simp [hx]))

theorem filterMap_none_nil {α β : Type} (f : α → Option β) :
    ∀ (l : List α), (∀ x ∈ l, f x = none) → l.filterMap f = [] := by
  intro l
  induction l with
  | nil => intro _; rfl
  | cons a l ih =>
    intro h
    rw [List.filterMap_cons, h a (by simp)]
    exact ih (fun x hx => h x (by simp [hx]))

theorem read_a3m_go_some :
    ∀ (rest : List (List Char)) (q : List Char) (i : Nat)
      (heads seqs : List (List Char)) (u : Nat),
      read_a3m_go i (some q) heads seqs u rest ≠ none := by
  intro rest
  induction rest with
  | nil => intro q i heads seqs u; simp [read_a3m_go]
  | cons l rest ih =>
    intro q i heads seqs u
    simp only [read_a3m_go]
    by_cases hs : pyStartsWith l ['>'] = true
    · rw [if_pos hs]
      by_cases hi : i = 0
      · rw [if_pos hi]; exact ih l (i + 1) (heads ++ [l]) seqs u
      · rw [if_neg hi]; exact ih q (i + 1) (heads ++ [l]) seqs _
    · rw [if_neg hs]; exact ih q (i + 1) heads (seqs ++ [l]) u

theorem read_a3m_go_none_iff :
    ∀ (rest : List (List Char)) (i : Nat) (heads seqs : List (List Char)) (u : Nat),
      1 ≤ i →
      (read_a3m_go i none heads seqs u rest = none ↔
        rest.any (fun l => pyStartsWith l ['>']) = true) := by
  intro rest
  induction rest with
  | nil => intro i heads seqs u _; simp [read_a3m_go]
  | cons l rest ih =>
    intro i heads seqs u hi
    simp only [read_a3m_go, List.any_cons]
    by_cases hs : pyStartsWith l ['>'] = true
    · rw [if_pos hs, if_neg (by omega : ¬ i = 0)]
      simp [hs]
    · rw [if_neg hs]
      rw [ih (i + 1) heads (seqs ++ [l]) u (by omega)]
      simp [hs]

theorem read_a3m_go_noRepeat (q : List Char) :
    ∀ (rest : List (List Char)) (i : Nat) (heads seqs : List (List Char)) (u : Nat),
      1 ≤ i → (∀ j, j < rest.length → rest.getD j [] ≠ q) →
      ∃ H S, read_a3m_go i (some q) heads seqs u rest = some (H, S, u) := by
  intro rest
  induction rest with
  | nil => intro i heads seqs u _ _; exact ⟨heads, seqs, rfl⟩
  | cons l rest ih =>
    intro i heads seqs u hi hnone
    have hl : l ≠ q := by
      have := hnone 0 (by simp)
      simpa using this
    simp only [read_a3m_go]
    by_cases hs : pyStartsWith l ['>'] = true
    · rw [if_pos hs, if_neg (by omega : ¬ i = 0)]
      rw [if_neg hl]
      exact ih (i + 1) (heads ++ [l]) seqs u (by omega)
        (fun j hj => by simpa using hnone (j + 1) (by simpa using Nat.succ_lt_succ hj))
    · rw [if_neg hs]
      exact ih (i + 1) heads (seqs ++ [l]) u (by omega)
        (fun j hj => by simpa using hnone (j + 1) (by simpa using Nat.succ_lt_succ hj))

theorem read_a3m_go_lastRepeat (q : List Char) (hq : pyStartsWith q ['>'] = true) :
    ∀ (rest : List (List Char)) (k i : Nat) (heads seqs : List (List Char)) (u : Nat),
      1 ≤ i → k < rest.length → rest.getD k [] = q →
      (∀ j, j < rest.length → k < j → rest.getD j [] ≠ q) →
      ∃ H S, read_a3m_go i (some q) heads seqs u rest = some (H, S, i + k) := by
  intro rest
  induction rest with
  | nil => intro k i heads seqs u _ hk; simp at hk
  | cons l rest ih =>
    intro k i heads seqs u hi hk hkq hafter
    cases k with
    | zero =>
      have hl : l = q := by simpa using hkq
      have hs : pyStartsWith l ['>'] = true := by rw [hl]; exact hq
      simp only [read_a3m_go]
      rw [if_pos hs, if_neg (by omega : ¬ i = 0), if_pos hl]
      have hnone : ∀ j, j < rest.length → rest.getD j [] ≠ q := by
        intro j hj
        have := hafter (j + 1) (by simpa using Nat.succ_lt_succ hj) (by omega)
        simpa using this
      simpa using read_a3m_go_noRepeat q rest (i + 1) (heads ++ [l]) seqs i (by omega) hnone
    | succ k =>
      have hk' : k < rest.length := by simpa using hk
      have hkq' : rest.getD k [] = q := by simpa using hkq
      have hafter' : ∀ j, j < rest.length → k < j → rest.getD j [] ≠ q := by
        intro j hj hkj
        have := hafter (j + 1) (by simpa using Nat.succ_lt_succ hj) (by omega)
        simpa using this
      simp only [read_a3m_go]
      by_cases hs : pyStartsWith l ['>'] = true
      · rw [if_pos hs, if_neg (by omega : ¬ i = 0)]
        have harith : i + 1 + k = i + (k + 1) := by omega
        obtain ⟨H, S, hgo⟩ := ih k (i + 1) (heads ++ [l]) seqs
          (if l = q then i else u) (by omega) hk' hkq' hafter'
        exact ⟨H, S, by rw [hgo, harith]⟩
      · rw [if_neg hs]
        have harith : i + 1 + k = i + (k + 1) := by omega
        obtain ⟨H, S, hgo⟩ := ih k (i + 1) heads (seqs ++ [l]) u (by omega) hk' hkq' hafter'
        exact ⟨H, S, by rw [hgo, harith]⟩

theorem evenCount_two_mul : ∀ (n i : Nat), i % 2 = 0 → evenCount i (2 * n) = n := by
  intro n
  induction n with
  | zero => intro i _; rfl
  | succ n ih =>
    intro i hi
    have h2 : 2 * (n + 1) = (2 * n + 1) + 1 := by omega
    rw [h2]
    simp only [evenCount]
    rw [if_pos hi, if_neg (by omega : ¬ (i + 1) % 2 = 0)]
    rw [ih (i + 2) (by omega)]
    omega

theorem pofLoop_wf (lines : List (List Char)) :
    ∀ (rem : List (List Char)) (i : Nat) (u o : List (List Char)),
      (∀ j, j < rem.length → (i + j) % 2 = 0 →
        pyStartsWith (rem.getD j []) ['>'] = true ∧
        (pyStartsWith (rem.getD j []) ">UniRef100".toList = true →
          2 ≤ (pySplit '_' ((pySplit '\t' (rem.getD j [])).headD [])).length)) →
      ∃ u' o', pofLoop lines rem i u o = .done u' o' ∧
        u'.length + o'.length = u.length + o.length + 2 * evenCount i rem.length ∧
        u'.length % 2 = u.length % 2 ∧ o'.length % 2 = o.length % 2 := by
  intro rem
  induction rem with
  | nil =>
    intro i u o _
    exact ⟨u, o, rfl, by simp [evenCount], rfl, rfl⟩
  | cons l rest ih =>
    intro i u o hcond
    have hshift : ∀ j, j < rest.length → (i + 1 + j) % 2 = 0 →
        pyStartsWith (rest.getD j []) ['>'] = true ∧
        (pyStartsWith (rest.getD j []) ">UniRef100".toList = true →
          2 ≤ (pySplit '_' ((pySplit '\t' (rest.getD j [])).headD [])).length) := by
      intro j hj hpar
      have := hcond (j + 1) (by simpa using Nat.succ_lt_succ hj) (by omega)
      simpa using this
    simp only [pofLoop]
    by_cases hi : i % 2 = 0
    · rw [if_pos hi]
      have h0 := hcond 0 (by simp) (by omega)
      rw [List.getD_cons_zero] at h0
      obtain ⟨hs, hparse⟩ := h0
      rw [if_pos hs]
      by_cases hu : pyStartsWith l ">UniRef100".toList = true
      · rw [if_pos hu]
        have hlen : 2 ≤ (pySplit '_' ((pySplit '\t' l).headD [])).length := hparse hu
        by_cases h3 : (pySplit '_' ((pySplit '\t' l).headD [])).length = 3
        · rw [if_pos h3]
          obtain ⟨u', o', hdone, hlen', hu2, ho2⟩ := ih (i + 1) _ o hshift
          refine ⟨u', o', hdone, ?_, ?_, ho2⟩
          · simp only [List.length_append, List.length_cons, List.length_nil] at hlen' ⊢
            simp only [List.length_cons] at *
            simp [evenCount, hi] at *
            omega
          · simp only [List.length_append] at hu2
            simp only [List.length_cons, List.length_nil] at hu2
            omega
        · rw [if_neg h3, if_pos hlen]
          obtain ⟨u', o', hdone, hlen', hu2, ho2⟩ := ih (i + 1) _ o hshift
          refine ⟨u', o', hdone, ?_, ?_, ho2⟩
          · simp only [List.length_append, List.length_cons, List.length_nil] at hlen' ⊢
            simp [evenCount, hi] at *
            omega
          · simp only [List.length_append, List.length_cons, List.length_nil] at hu2
            omega
      · rw [if_neg hu]
        obtain ⟨u', o', hdone, hlen', hu2, ho2⟩ := ih (i + 1) u _ hshift
        refine ⟨u', o', hdone, ?_, hu2, ?_⟩
        · simp only [List.length_append, List.length_cons, List.length_nil] at hlen' ⊢
          simp [evenCount, hi] at *
          omega
        · simp only [List.length_append, List.length_cons, List.length_nil] at ho2
          omega
    · rw [if_neg hi]
      obtain ⟨u', o', hdone, hlen', hu2, ho2⟩ := ih (i + 1) u o hshift
      refine ⟨u', o', hdone, ?_, hu2, ho2⟩
      simp [evenCount, hi] at *
      omega

/-- C9: on a file of exactly one line (and on the empty file) the
partitioner logs nothing — the empty-query guard fires only when a line 1
exists and has length 1 — and the unguarded lines[1] access raises
IndexError, so process_one_file is not total on files shorter than two
lines. -/
theorem process_one_file_short_file :
    (∀ l : List Char, process_one_file [l] =
      { logs := [], pairingOut := none, nonPairingOut := none, retval := none,
        err := some PyErr.indexError }) ∧
    process_one_file [] =
      { logs := [], pairingOut := none, nonPairingOut := none, retval := none,
        err := some PyErr.indexError } := by
  constructor
  · intro l
    unfold process_one_file
    rw [if_neg (by simp)]
  · decide

/-- C1: on the four-line alignment '>q' / 'QQQ' / '>UniRef100_A_9606<tab>hit'
/ 'SSS', the partitioner appends to the pairable list the record whose header
is the normalized UniRef100 header but whose sequence line is 'QQQ' — line 1
of the file, the QUERY sequence — because `seq = lines[i + 1]` indexes the
full line list with the slice-relative loop index.  The hit's own adjacent
sequence line 'SSS' appears nowhere in the output. -/
theorem process_one_file_misaligned_pairing :
    process_one_file [">q\n".toList, "QQQ\n".toList,
        ">UniRef100_A_9606\thit\n".toList, "SSS\n".toList] =
      { logs := [],
        pairingOut := some [">query\n".toList, "QQQ\n".toList,
          ">cb|A|A_9606\n".toList, "QQQ\n".toList],
        nonPairingOut := none, retval := some "QQQ".toList, err := none } ∧
    "SSS\n".toList ∉ [">query\n".toList, "QQQ\n".toList,
      ">cb|A|A_9606\n".toList, "QQQ\n".toList] := by
  decide

/-- C8: a document holding one protein chain and one RNA entry is not
emitted at all: the per-chain loop reads chain["protein"] unguarded, so the
RNA entry raises KeyError instead of passing through unchanged. -/
theorem af3_nonprotein_keyerror :
    write_to_af3_template ex8Doc ex8Reg ex8Fs = .error PyErr.keyError ∧
    (∀ out : FoldInput, write_to_af3_template ex8Doc ex8Reg ex8Fs ≠ .ok out) := by
  constructor
  · decide
  · intro out h
    rw [show write_to_af3_template ex8Doc ex8Reg ex8Fs = .error PyErr.keyError from
      by decide] at h
    simp at h

/-- C2 counterexample: for a run over the single alignment file "x.a3m" whose
line 1 is a lone newline, the registry loop DOES add an entry for that file
— msa_chain_seq becomes {"0": None}, not the empty mapping the claim
requires. -/
theorem buildRegistry_null_entry :
    buildRegistry [("x.a3m", [">q\n".toList, "\n".toList])] = some [("0", none)] ∧
    buildRegistry [("x.a3m", [">q\n".toList, "\n".toList])] ≠
      some ([] : List (String × Option (List Char))) := by
  decide

/-- C3 counterexample: in the file '>q' / A / '>q' / B / '>q' / C the query
header repeats at lines 2 and 4; read_a3m returns uniref_index = 4 (the LAST
occurrence), not 2 (the first occurrence required by the claim). -/
theorem read_a3m_last_repeat_cex :
    (read_a3m [">q\n".toList, "A\n".toList, ">q\n".toList, "B\n".toList,
        ">q\n".toList, "C\n".toList]).map (fun r => r.2.2) = some 4 ∧
    (read_a3m [">q\n".toList, "A\n".toList, ">q\n".toList, "B\n".toList,
        ">q\n".toList, "C\n".toList]).map (fun r => r.2.2) ≠ some 2 := by
  decide

/-- C5 counterexample: read_a3m returns successfully on the EMPTY file
(no FormatError is raised anywhere in the function), and it fails on the
non-empty file 'A' / '>x' — whose line 0 is not a header — with a NameError
at query_name, so "fails iff the file is empty" is wrong in both
directions. -/
theorem read_a3m_empty_file_cex :
    read_a3m ([] : List (List Char)) = some ([], [], 0) ∧
    read_a3m ["A\n".toList, ">x\n".toList] = none := by
  decide

/-- C6 counterexample: with TaxonomyMap {"A": "9"} and the in-window record
whose header is '>A<tab>A', the identifier "A" also occurs in the
description, and head.replace rewrites BOTH occurrences: the emitted header
is '>UniRef100_A_9/<tab>UniRef100_A_9/', not the claimed
'>UniRef100_A_9/<tab>A' with only the identifier rewritten. -/
theorem update_a3m_replace_all_cex :
    update_a3m [">A\tA\n".toList, "S\n".toList, ">A\tA\n".toList, "T\n".toList]
        [("A".toList, "9".toList)] =
      some [(">UniRef100_A_9/\tUniRef100_A_9/\n".toList, "S\n".toList),
            (">A\tA\n".toList, "T\n".toList)] ∧
    ">UniRef100_A_9/\tUniRef100_A_9/\n".toList ≠ ">UniRef100_A_9/\tA\n".toList := by
  decide

/-- C5 (amended): read_a3m never raises a FormatError.  It fails — with a
NameError at query_name, not a FormatError — exactly on the files whose
line 0 does not start with '>' while some later line does; in particular
the empty file returns successfully (empty lists, boundary 0). -/
theorem read_a3m_failure_charact (lines : List (List Char)) :
    read_a3m lines = none ↔
      (pyStartsWith (lines.headD []) ['>'] = false ∧
        lines.tail.any (fun l => pyStartsWith l ['>']) = true) := by
  cases lines with
  | nil => decide
  | cons l0 rest =>
    simp only [List.headD_cons, List.tail_cons]
    show read_a3m_go 0 none [] [] 0 (l0 :: rest) = none ↔ _
    by_cases hs : pyStartsWith l0 ['>'] = true
    · simp only [read_a3m_go]
      rw [if_pos hs]
      simp only [if_true]
      constructor
      · intro h
        exact absurd h (read_a3m_go_some rest l0 (0 + 1) ([] ++ [l0]) [] 0)
      · intro h
        rw [hs] at h
        simp at h
    · have hs' : pyStartsWith l0 ['>'] = false := by
        simpa using hs
      simp only [read_a3m_go]
      rw [if_neg hs]
      rw [read_a3m_go_none_iff rest (0 + 1) [] ([] ++ [l0]) 0 (by omega)]
      simp [hs']

/-- C3 (amended): when line 0 is a header, read_a3m sets boundary_index to
the line number of the LAST subsequent line equal to the line-0 header —
each occurrence overwrites the previous value — and to 0 when the header
never repeats; in particular when the header repeats exactly once at line k,
boundary_index = k. -/
theorem read_a3m_boundary_last_repeat (lines : List (List Char))
    (H S : List (List Char)) (u : Nat)
    (hq : pyStartsWith (lines.headD []) ['>'] = true)
    (hr : read_a3m lines = some (H, S, u)) :
    ((∀ j, j < lines.length → 1 ≤ j → lines.getD j [] ≠ lines.headD []) → u = 0) ∧
    (∀ k, 1 ≤ k → k < lines.length → lines.getD k [] = lines.headD [] →
      (∀ j, j < lines.length → k < j → lines.getD j [] ≠ lines.headD []) →
      u = k) := by
  cases lines with
  | nil =>
    constructor
    · intro _
      rw [show read_a3m [] = some ([], [], 0) from rfl] at hr
      injection hr with h1
      injection h1 with _ h2
      injection h2 with _ h3
      exact h3.symm
    · intro k _ hk
      simp at hk
  | cons l0 rest =>
    simp only [List.headD_cons] at hq ⊢
    have hstep : read_a3m (l0 :: rest) = read_a3m_go 1 (some l0) [l0] [] 0 rest := by
      show read_a3m_go 0 none [] [] 0 (l0 :: rest) = _
      simp only [read_a3m_go]
      rw [if_pos hq]
      simp only [if_true]
      norm_num
    constructor
    · intro hnone
      obtain ⟨H', S', hgo⟩ := read_a3m_go_noRepeat l0 rest 1 [l0] [] 0 (by omega)
        (fun j hj => by
          have := hnone (j + 1) (by simpa using Nat.succ_lt_succ hj) (by omega)
          simpa using this)
      rw [hstep, hgo] at hr
      injection hr with h1
      injection h1 with _ h2
      injection h2 with _ h3
      exact h3.symm
    · intro k hk1 hk2 hkq hafter
      cases k with
      | zero => omega
      | succ k =>
        have hk2' : k < rest.length := by simpa using hk2
        have hkq' : rest.getD k [] = l0 := by simpa using hkq
        have hafter' : ∀ j, j < rest.length → k < j → rest.getD j [] ≠ l0 := by
          intro j hj hkj
          have := hafter (j + 1) (by simpa using Nat.succ_lt_succ hj) (by omega)
          simpa using this
        obtain ⟨H', S', hgo⟩ :=
          read_a3m_go_lastRepeat l0 hq rest k 1 [l0] [] 0 (by omega) hk2' hkq' hafter'
        rw [hstep, hgo] at hr
        injection hr with h1
        injection h1 with _ h2
        injection h2 with _ h3
        omega

/-- Witness for read_a3m_boundary_last_repeat at a concrete file: header
at line 0, repeats at lines 2 and 4; the hypotheses hold with k = 4 and the
returned boundary is 4. -/
theorem read_a3m_boundary_last_repeat_witness :
    (pyStartsWith (([">q\n".toList, "A\n".toList, ">q\n".toList, "B\n".toList,
        ">q\n".toList, "C\n".toList] : List (List Char)).headD []) ['>'] = true ∧
      read_a3m [">q\n".toList, "A\n".toList, ">q\n".toList, "B\n".toList,
        ">q\n".toList, "C\n".toList] =
        some ([">q\n".toList, ">q\n".toList, ">q\n".toList],
          ["A\n".toList, "B\n".toList, "C\n".toList], 4)) ∧
    (4 : Nat) = 4 := by
  refine ⟨⟨by decide, by decide⟩, ?_⟩
  exact (read_a3m_boundary_last_repeat
    [">q\n".toList, "A\n".toList, ">q\n".toList, "B\n".toList,
      ">q\n".toList, "C\n".toList]
    [">q\n".toList, ">q\n".toList, ">q\n".toList]
    ["A\n".toList, "B\n".toList, "C\n".toList] 4
    (by decide) (by decide)).2 4 (by decide) (by decide) (by decide)
    (by decide)

/-- C2 (amended): for an alignment file whose line 1 has length 1 (a lone
newline), process_one_file writes exactly one marker, named
basename-empty_query_seq, writes neither per-query output file and returns
None — but the registry loop still adds an entry for the file: the Chain
Registry maps the file's per-query identifier to None instead of holding no
entry for it. -/
theorem empty_query_marker (fname : String) (lines : List (List Char))
    (files : List (String × List (List Char))) (idx : Nat)
    (h2 : 2 ≤ lines.length) (h1 : (lines.getD 1 []).length = 1) :
    markersOf fname (process_one_file lines) = [markerName fname "empty_query_seq"] ∧
    (process_one_file lines).pairingOut = none ∧
    (process_one_file lines).nonPairingOut = none ∧
    (process_one_file lines).retval = none ∧
    (∀ reg, buildRegistry files = some reg → idx < files.length →
      files.getD idx ("", []) = (fname, lines) →
      reg.getD idx ("", none) = (toString idx, none)) := by
  have hpof : process_one_file lines =
      { logs := ["empty_query_seq"], pairingOut := none, nonPairingOut := none,
        retval := none, err := none } := by
    unfold process_one_file
    rw [if_pos h2, if_pos h1]
  refine ⟨?_, ?_, ?_, ?_, ?_⟩
  · rw [hpof]; rfl
  · rw [hpof]
  · rw [hpof]
  · rw [hpof]
  · intro reg hreg hidx hfile
    unfold buildRegistry at hreg
    by_cases hall : files.all (fun f => (process_one_file f.2).err.isNone) = true
    · rw [if_pos hall] at hreg
      injection hreg with hreg
      rw [← hreg]
      rw [mapIdx_getD (fun p => (toString p.1, (process_one_file p.2.2).retval))
        ("", none) ("", []) files 0 idx hidx]
      rw [hfile]
      simp [hpof]
    · rw [if_neg hall] at hreg
      cases hreg

/-- Witness for empty_query_marker at the concrete single-file run over
"x.a3m" with an empty line 1. -/
theorem empty_query_marker_witness :
    (2 ≤ ([">q\n".toList, "\n".toList] : List (List Char)).length ∧
      (([">q\n".toList, "\n".toList] : List (List Char)).getD 1 []).length = 1) ∧
    (markersOf "x.a3m" (process_one_file [">q\n".toList, "\n".toList]) =
        [markerName "x.a3m" "empty_query_seq"] ∧
      (process_one_file [">q\n".toList, "\n".toList]).pairingOut = none ∧
      (process_one_file [">q\n".toList, "\n".toList]).nonPairingOut = none ∧
      (process_one_file [">q\n".toList, "\n".toList]).retval = none ∧
      (∀ reg, buildRegistry [("x.a3m", [">q\n".toList, "\n".toList])] = some reg →
        0 < ([("x.a3m", [">q\n".toList, "\n".toList])] : List (String × List (List Char))).length →
        ([("x.a3m", [">q\n".toList, "\n".toList])] : List (String × List (List Char))).getD 0 ("", []) =
          ("x.a3m", [">q\n".toList, "\n".toList]) →
        reg.getD 0 ("", none) = (toString 0, none))) :=
  ⟨⟨by decide, by decide⟩,
    empty_query_marker "x.a3m" [">q\n".toList, "\n".toList]
      [("x.a3m", [">q\n".toList, "\n".toList])] 0 (by decide) (by decide)⟩

theorem afterLoop_err_ne_count (len : Nat) (origin : List Char)
    (u o : List (List Char)) (h : (u.length + o.length) - 2 = len) :
    (afterLoop len origin u o).err ≠ some PyErr.assertCount := by
  unfold afterLoop
  rw [if_neg (by omega)]
  dsimp only
  split
  · simp
  · split
    · simp
    · simp

/-- C4: on every well-formed alignment with n header/sequence pairs after
the query, the classification loop completes with pairable and non-pairable
line lists of even lengths totalling 2*(n+2) lines — that is, n + 2 records
— the code's record-count equality len(other) + len(uniref100) - 2 ==
len(lines) holds, and process_one_file never fails the record-count
assertion on such input. -/
theorem partition_count_invariant (n : Nat) (lines : List (List Char))
    (hwf : wellFormed n lines) :
    (∃ u o, pofLoop lines (lines.drop 2) 0 (queryInit lines) (queryInit lines) = .done u o ∧
      u.length + o.length = 2 * (n + 2) ∧
      u.length % 2 = 0 ∧ o.length % 2 = 0 ∧
      u.length / 2 + o.length / 2 = n + 2 ∧
      (u.length + o.length) - 2 = lines.length) ∧
    (process_one_file lines).err ≠ some PyErr.assertCount := by
  obtain ⟨hlen, hq1, hhdr, hsplit⟩ := hwf
  have hrem : (lines.drop 2).length = 2 * n := by
    rw [List.length_drop, hlen]; omega
  have hcond : ∀ j, j < (lines.drop 2).length → (0 + j) % 2 = 0 →
      pyStartsWith ((lines.drop 2).getD j []) ['>'] = true ∧
      (pyStartsWith ((lines.drop 2).getD j []) ">UniRef100".toList = true →
        2 ≤ (pySplit '_' ((pySplit '\t' ((lines.drop 2).getD j [])).headD [])).length) := by
    intro j hj hpar
    obtain ⟨j', rfl⟩ : ∃ j', j = 2 * j' := ⟨j / 2, by omega⟩
    have hj' : j' < n := by rw [hrem] at hj; omega
    rw [getD_drop_add [] 2 lines (2 * j')]
    exact ⟨hhdr j' hj', hsplit j' hj'⟩
  obtain ⟨u, o, hdone, hsum, hu2, ho2⟩ :=
    pofLoop_wf lines (lines.drop 2) 0 (queryInit lines) (queryInit lines) hcond
  have hqlen : (queryInit lines).length = 2 := rfl
  rw [hqlen, hrem, evenCount_two_mul n 0 rfl] at hsum
  rw [hqlen] at hu2 ho2
  refine ⟨⟨u, o, hdone, by omega, by omega, by omega, by omega, by omega⟩, ?_⟩
  unfold process_one_file
  rw [if_pos (by omega : 2 ≤ lines.length), if_neg hq1, hdone]
  exact afterLoop_err_ne_count lines.length (pyStrip (lines.getD 1 [])) u o (by omega)

/-- Witness for partition_count_invariant on a concrete well-formed file
with one UniRef100 hit after the query (n = 1). -/
theorem partition_count_invariant_witness :
    wellFormed 1 [">q\n".toList, "QQ\n".toList,
      ">UniRef100_A_9606\td\n".toList, "SS\n".toList] ∧
    ((∃ u o, pofLoop [">q\n".toList, "QQ\n".toList,
          ">UniRef100_A_9606\td\n".toList, "SS\n".toList]
        (([">q\n".toList, "QQ\n".toList, ">UniRef100_A_9606\td\n".toList,
          "SS\n".toList] : List (List Char)).drop 2) 0
        (queryInit [">q\n".toList, "QQ\n".toList, ">UniRef100_A_9606\td\n".toList,
          "SS\n".toList])
        (queryInit [">q\n".toList, "QQ\n".toList, ">UniRef100_A_9606\td\n".toList,
          "SS\n".toList]) = .done u o ∧
        u.length + o.length = 2 * (1 + 2) ∧
        u.length % 2 = 0 ∧ o.length % 2 = 0 ∧
        u.length / 2 + o.length / 2 = 1 + 2 ∧
        (u.length + o.length) - 2 = ([">q\n".toList, "QQ\n".toList,
          ">UniRef100_A_9606\td\n".toList, "SS\n".toList] : List (List Char)).length) ∧
      (process_one_file [">q\n".toList, "QQ\n".toList,
        ">UniRef100_A_9606\td\n".toList, "SS\n".toList]).err ≠
          some PyErr.assertCount) :=
  ⟨by decide,
    partition_count_invariant 1 [">q\n".toList, "QQ\n".toList,
      ">UniRef100_A_9606\td\n".toList, "SS\n".toList] (by decide)⟩

/-- C6 (amended): a record of the parsed alignment whose index is outside
the boundary window, or whose identifier has no taxonomy entry, is emitted
unchanged; a record inside the window whose identifier is a key of the map
has EVERY occurrence of the identifier substring in its header replaced
(Python str.replace), so when the identifier is nonempty, contains no '>'
and occurs in the header only at the identifier position, the emitted
header is exactly the original with the identifier rewritten to
identifier_taxid/ (when it already carries the UniRef100_ tag) or to
UniRef100_identifier_taxid/ (otherwise). -/
theorem update_a3m_window (lines : List (List Char)) (tax : List (List Char × List Char))
    (heads seqs : List (List Char)) (u : Nat) (out : List (List Char × List Char))
    (idx : Nat) (head seq : List Char)
    (hr : read_a3m lines = some (heads, seqs, u))
    (ho : update_a3m lines tax = some out)
    (hidx : idx < (heads.zip seqs).length)
    (hrec : (heads.zip seqs).getD idx ([], []) = (head, seq)) :
    ((pyLookup tax (identOf head) = none ∨ u / 2 ≤ idx) →
      out.getD idx ([], []) = (head, seq)) ∧
    (∀ (t : List Char) (c : Char) (ct rest : List Char),
      pyLookup tax (identOf head) = some t → idx < u / 2 →
      identOf head = c :: ct →
      head = '>' :: ((c :: ct) ++ rest) →
      '>' ∉ (c :: ct) →
      occursIn (c :: ct) rest = false →
      out.getD idx ([], []) =
        ('>' :: ((if pyStartsWith (c :: ct) "UniRef100_".toList then
              (c :: ct) ++ "_".toList ++ t ++ "/".toList
            else
              "UniRef100_".toList ++ (c :: ct) ++ "_".toList ++ t ++ "/".toList)
          ++ rest), seq)) := by
  have hout : mapIdx (fun p => annotate tax u p.1 p.2.1 p.2.2) 0 (heads.zip seqs) = out := by
    unfold update_a3m at ho
    rw [hr] at ho
    simpa using ho
  have hgetD : out.getD idx ([], []) = annotate tax u idx head seq := by
    rw [← hout]
    rw [mapIdx_getD _ ([], []) ([], []) (heads.zip seqs) 0 idx hidx]
    rw [hrec]
    simp
  constructor
  · intro hcase
    rw [hgetD]
    rcases hcase with hnone | hge
    · simp only [annotate]
      rw [hnone]
    · simp only [annotate]
      cases hl : pyLookup tax (identOf head) with
      | none => rfl
      | some t =>
        dsimp only
        rw [if_neg (by omega : ¬ idx < u / 2)]
  · intro t c ct rest hlook hwin hid hdecomp hgt hnocc
    rw [hgetD]
    simp only [annotate]
    rw [hlook]
    dsimp only
    rw [if_pos hwin, hid]
    have hUR : "UniRef100_".toList = ['U', 'n', 'i', 'R', 'e', 'f', '1', '0', '0', '_'] := rfl
    simp only [hUR]
    by_cases hpre : pyStartsWith (c :: ct) ['U', 'n', 'i', 'R', 'e', 'f', '1', '0', '0', '_'] = true
    · rw [if_neg (by simp [hpre]), if_pos hpre]
      rw [hdecomp]
      rw [pyReplace_ident c ct rest _ hgt hnocc]
    · rw [if_pos hpre, if_neg hpre]
      rw [hdecomp]
      rw [pyReplace_ident c ct rest _ hgt hnocc]

/-- Witness for update_a3m_window at a concrete in-window record: the file
'>Q1<tab>desc' / S / '>Q1<tab>desc' / T has boundary 2, record 0 is inside
the window, 'Q1' maps to 9606 and occurs only at the identifier position,
so the emitted header is '>UniRef100_Q1_9606/<tab>desc'. -/
theorem update_a3m_window_witness :
    (read_a3m [">Q1\tdesc\n".toList, "S\n".toList, ">Q1\tdesc\n".toList, "T\n".toList] =
        some ([">Q1\tdesc\n".toList, ">Q1\tdesc\n".toList],
          ["S\n".toList, "T\n".toList], 2) ∧
      update_a3m [">Q1\tdesc\n".toList, "S\n".toList, ">Q1\tdesc\n".toList, "T\n".toList]
          [("Q1".toList, "9606".toList)] =
        some [(">UniRef100_Q1_9606/\tdesc\n".toList, "S\n".toList),
              (">Q1\tdesc\n".toList, "T\n".toList)] ∧
      pyLookup [("Q1".toList, "9606".toList)] (identOf ">Q1\tdesc\n".toList) =
        some "9606".toList) ∧
    ([(">UniRef100_Q1_9606/\tdesc\n".toList, "S\n".toList),
      (">Q1\tdesc\n".toList, "T\n".toList)] : List (List Char × List Char)).getD 0 ([], []) =
      ('>' :: ((if pyStartsWith ('Q' :: "1".toList) "UniRef100_".toList then
            ('Q' :: "1".toList) ++ "_".toList ++ "9606".toList ++ "/".toList
          else
            "UniRef100_".toList ++ ('Q' :: "1".toList) ++ "_".toList ++ "9606".toList
              ++ "/".toList)
        ++ "\tdesc\n".toList), "S\n".toList) :=
  ⟨⟨by decide, by decide, by decide⟩,
    (update_a3m_window
      [">Q1\tdesc\n".toList, "S\n".toList, ">Q1\tdesc\n".toList, "T\n".toList]
      [("Q1".toList, "9606".toList)]
      [">Q1\tdesc\n".toList, ">Q1\tdesc\n".toList] ["S\n".toList, "T\n".toList] 2
      [(">UniRef100_Q1_9606/\tdesc\n".toList, "S\n".toList),
        (">Q1\tdesc\n".toList, "T\n".toList)]
      0 ">Q1\tdesc\n".toList "S\n".toList
      (by decide) (by decide) (by decide) (by decide)).2
      "9606".toList 'Q' "1".toList "\tdesc\n".toList
      (by decide) (by decide) (by decide) (by decide) (by decide) (by decide)⟩

/-- C7: whenever the assembler emits a document, every protein chain of the
input reappears at its position with id, sequence and the other fields
unchanged, templates set to the empty list, tab-free unpairedMsa and
pairedMsa, and — when no pairing subset file exists for the chain's
registry identifier — pairedMsa equal to the empty string; moreover a
resolving protein chain is processed without error for ANY set of existing
subset files (missing files are skipped, never raised on). -/
theorem af3_protein_fields (doc : FoldInput) (reg : List (String × Option (List Char)))
    (fs : String → String → Option (List Char)) (udb pdb : List String)
    (out : FoldInput) (i : Nat) (ch : Protein)
    (hok : write_to_af3_template doc reg fs udb pdb = .ok out)
    (hi : i < doc.sequences.length)
    (hch : doc.sequences.getD i (.nonProtein [] []) = .protein ch) :
    ∃ chOut : Protein,
      out.sequences.getD i (.nonProtein [] []) = .protein chOut ∧
      chOut.id = ch.id ∧ chOut.sequence = ch.sequence ∧ chOut.extra = ch.extra ∧
      chOut.templates = some [] ∧
      (∀ s, chOut.pairedMsa = some s → '\t' ∉ s) ∧
      (∀ s, chOut.unpairedMsa = some s → '\t' ∉ s) ∧
      (∀ cid, msaSeqChain reg ch.sequence = some cid →
        (∀ db, db ∈ pdb → fs cid db = none) → chOut.pairedMsa = some []) ∧
      (∀ fs2 : String → String → Option (List Char), ∀ cid,
        msaSeqChain reg ch.sequence = some cid →
        ∃ e, processEntity reg fs2 udb pdb (.protein ch) = .ok e) := by
  unfold write_to_af3_template at hok
  cases hm : mapExcept (processEntity reg fs udb pdb) doc.sequences with
  | error e => rw [hm] at hok; simp [Except.map] at hok
  | ok seqs =>
    rw [hm] at hok
    simp only [Except.map] at hok
    have hout : out = { doc with sequences := seqs } := by
      cases hok
      rfl
    have hpe := mapExcept_ok_getD (processEntity reg fs udb pdb)
      (Entity.nonProtein [] []) (Entity.nonProtein [] []) doc.sequences seqs i hm hi
    rw [hch] at hpe
    unfold processEntity at hpe
    dsimp only at hpe
    cases hcid : msaSeqChain reg ch.sequence with
    | none => rw [hcid] at hpe; simp at hpe
    | some cid =>
      rw [hcid] at hpe
      have hseqi : seqs.getD i (Entity.nonProtein [] []) = Entity.protein
          { ch with
            unpairedMsa := some (gatherDb fs cid udb),
            pairedMsa := some (gatherDb fs cid pdb),
            templates := some [] } := by
        injection hpe with hpe
        exact hpe.symm
      refine ⟨{ ch with
          unpairedMsa := some (gatherDb fs cid udb),
          pairedMsa := some (gatherDb fs cid pdb),
          templates := some [] },
        ?_, rfl, rfl, rfl, rfl, ?_, ?_, ?_, ?_⟩
      · rw [hout]
        exact hseqi
      · intro s hs
        injection hs with hs
        rw [← hs]
        simp only [gatherDb]
        exact tab_notin_tabToSpace _
      · intro s hs
        injection hs with hs
        rw [← hs]
        simp only [gatherDb]
        exact tab_notin_tabToSpace _
      · intro cid0 hcid0 hall
        injection hcid0 with hcid0
        subst hcid0
        have hnil : pdb.filterMap (fun db => fs cid db) = [] :=
          filterMap_none_nil _ pdb hall
        show some (gatherDb fs cid pdb) = some []
        simp only [gatherDb, hnil, List.flatten_nil]
        rfl
      · intro fs2 cid0 hcid0
        refine ⟨Entity.protein { ch with
            unpairedMsa := some (gatherDb fs2 cid udb),
            pairedMsa := some (gatherDb fs2 cid pdb),
            templates := some [] }, ?_⟩
        simp only [processEntity]
        rw [hcid]

/-- Witness for af3_protein_fields on the concrete single-chain document
with no subset files on disk: the emitted chain has empty pairedMsa, empty
unpairedMsa, empty templates, and no error was raised. -/
theorem af3_protein_fields_witness :
    (write_to_af3_template ex7Doc ex7Reg ex7Fs = .ok ex7Out ∧
      0 < ex7Doc.sequences.length ∧
      ex7Doc.sequences.getD 0 (.nonProtein [] []) = .protein ex7Prot) ∧
    (∃ chOut : Protein,
      ex7Out.sequences.getD 0 (.nonProtein [] []) = .protein chOut ∧
      chOut.sequence = ex7Prot.sequence ∧
      chOut.templates = some [] ∧ chOut.pairedMsa = some []) := by
  refine ⟨⟨by decide, by decide, by decide⟩, ?_⟩
  obtain ⟨chOut, hat, hid, hseq, hex, htem, htabp, htabu, hempty, hnoerr⟩ :=
    af3_protein_fields ex7Doc ex7Reg ex7Fs ["uniref100", "mmseqs_other"] ["uniref100"]
      ex7Out 0 ex7Prot (by decide) (by decide) (by decide)
  exact ⟨chOut, hat, hseq, htem, hempty "0" (by decide) (by decide)⟩

/-- C10: when a query sequence was registered under several identifiers, the
sequence-to-identifier inversion {v: k for k, v in registry} resolves it to
the identifier registered LAST; resolution raises no error for such a
duplicate, and in any emitted document every protein chain carrying that
sequence receives the same pairedMsa and the same unpairedMsa — those built
from the last-registered identifier's subset files. -/
theorem last_registration_wins (l1 l2 : List (String × Option (List Char)))
    (k : String) (sq : List Char)
    (hl2 : ∀ p, p ∈ l2 → p.2 ≠ some sq) :
    msaSeqChain (l1 ++ (k, some sq) :: l2) sq = some k ∧
    (∀ (fs2 : String → String → Option (List Char)) (udb pdb : List String)
       (ch : Protein), ch.sequence = sq →
      ∃ e, processEntity (l1 ++ (k, some sq) :: l2) fs2 udb pdb (.protein ch) = .ok e) ∧
    (∀ (doc out : FoldInput) (fs : String → String → Option (List Char))
       (udb pdb : List String) (i j : Nat) (chi chj : Protein),
      write_to_af3_template doc (l1 ++ (k, some sq) :: l2) fs udb pdb = .ok out →
      i < doc.sequences.length → j < doc.sequences.length →
      doc.sequences.getD i (.nonProtein [] []) = .protein chi →
      doc.sequences.getD j (.nonProtein [] []) = .protein chj →
      chi.sequence = sq → chj.sequence = sq →
      ∃ ci cj : Protein,
        out.sequences.getD i (.nonProtein [] []) = .protein ci ∧
        out.sequences.getD j (.nonProtein [] []) = .protein cj ∧
        ci.pairedMsa = cj.pairedMsa ∧ ci.unpairedMsa = cj.unpairedMsa ∧
        ci.pairedMsa = some (gatherDb fs k pdb) ∧
        ci.unpairedMsa = some (gatherDb fs k udb)) := by
  have h1 : msaSeqChain (l1 ++ (k, some sq) :: l2) sq = some k := by
    unfold msaSeqChain pyLookup
    rw [List.map_append, List.map_cons, List.reverse_append, List.reverse_cons,
      List.append_assoc]
    rw [find_append_of_none _ ((l2.map (fun p => (p.2, p.1))).reverse) _ ?_]
    · rw [List.singleton_append]
      simp [List.find?]
    · intro x hx
      rw [List.mem_reverse, List.mem_map] at hx
      obtain ⟨p, hp, rfl⟩ := hx
      simpa using hl2 p hp
  have hpe : ∀ (fs2 : String → String → Option (List Char)) (udb pdb : List String)
      (ch : Protein), ch.sequence = sq →
      processEntity (l1 ++ (k, some sq) :: l2) fs2 udb pdb (.protein ch) =
        .ok (.protein { ch with
          unpairedMsa := some (gatherDb fs2 k udb),
          pairedMsa := some (gatherDb fs2 k pdb),
          templates := some [] }) := by
    intro fs2 udb pdb ch hch
    simp only [processEntity]
    rw [hch, h1]
  refine ⟨h1, fun fs2 udb pdb ch hch => ⟨_, hpe fs2 udb pdb ch hch⟩, ?_⟩
  intro doc out fs udb pdb i j chi chj hok hi hj hchi hchj hsqi hsqj
  unfold write_to_af3_template at hok
  cases hm : mapExcept (processEntity (l1 ++ (k, some sq) :: l2) fs udb pdb)
      doc.sequences with
  | error e => rw [hm] at hok; simp [Except.map] at hok
  | ok seqs =>
    rw [hm] at hok
    simp only [Except.map] at hok
    have hout : out = { doc with sequences := seqs } := by
      cases hok
      rfl
    have hgi := mapExcept_ok_getD (processEntity (l1 ++ (k, some sq) :: l2) fs udb pdb)
      (Entity.nonProtein [] []) (Entity.nonProtein [] []) doc.sequences seqs i hm hi
    have hgj := mapExcept_ok_getD (processEntity (l1 ++ (k, some sq) :: l2) fs udb pdb)
      (Entity.nonProtein [] []) (Entity.nonProtein [] []) doc.sequences seqs j hm hj
    rw [hchi, hpe fs udb pdb chi hsqi] at hgi
    rw [hchj, hpe fs udb pdb chj hsqj] at hgj
    refine ⟨{ chi with
        unpairedMsa := some (gatherDb fs k udb),
        pairedMsa := some (gatherDb fs k pdb),
        templates := some [] },
      { chj with
        unpairedMsa := some (gatherDb fs k udb),
        pairedMsa := some (gatherDb fs k pdb),
        templates := some [] }, ?_, ?_, rfl, rfl, rfl, rfl⟩
    · rw [hout]
      injection hgi with hgi
      exact hgi.symm
    · rw [hout]
      injection hgj with hgj
      exact hgj.symm

/-- Witness for last_registration_wins: the sequence MKT is registered under
"0" and then under "1"; resolution yields "1". -/
theorem last_registration_wins_witness :
    (∀ p, p ∈ ([] : List (String × Option (List Char))) → p.2 ≠ some "MKT".toList) ∧
    msaSeqChain [("0", some "MKT".toList), ("1", some "MKT".toList)] "MKT".toList =
      some "1" :=
  ⟨by decide,
    (last_registration_wins [("0", some "MKT".toList)] [] "1" "MKT".toList
      (by decide)).1⟩
